import Mathlib

/-!
Shallow embedding of the jsonfile item store
(`store/jsonfile/store.go` of jansemmelink/items2).

An item is an opaque value of type `α`; its capability contract
(`Validate`, `Match`, optional `Keys`, optional notification hooks) is
carried by a `Caps α V` record, where `V` is the type of unique-key field
values (Go `interface{}` values).  Go maps are modelled as association
lists (`itemByID`) or as functions (`indexSet`, the uniqueness index);
file I/O is modelled as always succeeding, with the persisted file
contents carried in the `file` field of the store state.
-/

namespace Jsonfile

/-- Capability contract of an item type: `validate` and `matchF` return
`some msg` to report an error (Go `error ≠ nil`), `keys` is the optional
`IItemWithUniqueKeys` capability, and the three booleans record whether
the item type implements the optional notification interfaces. -/
structure Caps (α V : Type) where
  validate : α → Option String
  matchF : α → α → Option String
  keys : Option (α → List (String × V))
  hasNotifyNew : Bool
  hasNotifyUpd : Bool
  hasNotifyDel : Bool

/-- The unique keys an item declares: the declared (field, value) pairs
when the item implements `IItemWithUniqueKeys`, else the empty list
(an item without the capability participates in no index). -/
def itemKeys {α V : Type} (caps : Caps α V) (i : α) : List (String × V) :=
  match caps.keys with
  | some f => f i
  | none => []

/-- Uniqueness index (`indexSet`): field name → field value → owning id.
Go's `map[string]map[interface{}]string`; an absent inner map and an
absent entry both read as `none`. -/
def IndexSet (V : Type) : Type := String → V → Option String

/-- The empty uniqueness index (`newIndexSet`). -/
def emptyIndexSet {V : Type} : IndexSet V := fun _ _ => none

/-- CheckUniqueness from the source: returns `true` when a duplicate-key
error is reported.  For each declared (field, value) pair with an index
entry owned by `oid`: error when the id under test is empty (new item) or
when `oid` differs from it. -/
def checkUniqueness {V : Type} [DecidableEq V] (idx : IndexSet V) (id : String)
    (keys : List (String × V)) : Bool :=
  keys.any fun nv =>
    match idx nv.1 nv.2 with
    | some oid => id = "" || oid != id
    | none => false

/-- The duplicate check inside AddToIndex: an existing entry owned by a
different id. -/
def addToIndexCheck {V : Type} [DecidableEq V] (idx : IndexSet V) (id : String)
    (keys : List (String × V)) : Bool :=
  keys.any fun nv =>
    match idx nv.1 nv.2 with
    | some eid => eid != id
    | none => false

/-- Record all declared (field, value) pairs under `id` (the second loop
of AddToIndex). -/
def addKeysToIndex {V : Type} [DecidableEq V] (idx : IndexSet V) (id : String)
    (keys : List (String × V)) : IndexSet V :=
  keys.foldl (fun acc nv => fun n v => if n = nv.1 ∧ v = nv.2 then some id else acc n v) idx

/-- AddToIndex from the source: check all declared pairs first, then add
them all; on a duplicate nothing is added and an error is returned. -/
def addToIndex {V : Type} [DecidableEq V] (idx : IndexSet V) (id : String)
    (keys : List (String × V)) : Except Unit (IndexSet V) :=
  if addToIndexCheck idx id keys then Except.error ()
  else Except.ok (addKeysToIndex idx id keys)

/-- The effect of AddToIndex on the index when the caller discards the
returned error, as `Add` and `Upd` do in the source. -/
def addToIndexEffect {V : Type} [DecidableEq V] (idx : IndexSet V) (id : String)
    (keys : List (String × V)) : IndexSet V :=
  if addToIndexCheck idx id keys then idx else addKeysToIndex idx id keys

/-- DelFromIndex from the source: delete each declared (field, value)
entry (unconditionally on the owner; the id argument is only logged). -/
def delFromIndex {V : Type} [DecidableEq V] (idx : IndexSet V)
    (keys : List (String × V)) : IndexSet V :=
  keys.foldl (fun acc nv => fun n v => if n = nv.1 ∧ v = nv.2 then none else acc n v) idx

/-- One element of the persisted array: `fileItem{ID, Item}`. -/
structure FileItem (α : Type) where
  id : String
  item : α
deriving DecidableEq

/-- Go map read `m[k]`, on the association-list model of a map. -/
def mapGet {α : Type} (m : List (String × α)) (k : String) : Option α :=
  (m.find? fun e => e.1 = k).map fun e => e.2

/-- Go map write `m[k] = v`: replace in place when the key is present,
append otherwise. -/
def mapPut {α : Type} (m : List (String × α)) (k : String) (v : α) : List (String × α) :=
  if (m.find? fun e => e.1 = k).isSome then
    m.map fun e => if e.1 = k then (k, v) else e
  else
    m ++ [(k, v)]

/-- Go map delete `delete(m, k)`. -/
def mapDel {α : Type} (m : List (String × α)) (k : String) : List (String × α) :=
  m.filter fun e => ¬ e.1 = k

/-- In-memory store state plus the persisted (primary) file contents. -/
structure Store (α V : Type) where
  itemsFromFile : List (FileItem α)
  itemByID : List (String × α)
  indexSet : IndexSet V
  file : List (FileItem α)

/-- The state a freshly constructed store starts from, before its file is
read. -/
def emptyStore {α V : Type} : Store α V :=
  { itemsFromFile := [], itemByID := [], indexSet := emptyIndexSet, file := [] }

/-- Distinct error return sites of the mutating operations. -/
inductive StoreErr : Type
  | nilItem
  | validationFailed
  | duplicateKey
  | idCollision
  | notFound
deriving DecidableEq

/-- Lifecycle notifications fired on items, recorded as events: `upd`
carries the previous item passed to `NotifyUpd`. -/
inductive Notification (α : Type) : Type
  | upd (id : String) (old : α)
  | del (id : String)
  | new (id : String)
deriving DecidableEq

/-- Test for a `NotifyUpd` event of a given id. -/
def isUpdFor {α : Type} (id : String) : Notification α → Bool
  | Notification.upd i _ => i = id
  | _ => false

/-- Test for a `NotifyDel` event of a given id. -/
def isDelFor {α : Type} (id : String) : Notification α → Bool
  | Notification.del i => i = id
  | _ => false

/-- Test for a `NotifyNew` event of a given id. -/
def isNewFor {α : Type} (id : String) : Notification α → Bool
  | Notification.new i => i = id
  | _ => false

/-- Test for any `NotifyNew` event. -/
def isNew {α : Type} : Notification α → Bool
  | Notification.new _ => true
  | _ => false

/-- updateFile from the source: rewrite the whole file and commit the new
list to the store (file I/O modelled as succeeding). -/
def updateFile {α V : Type} (s : Store α V) (updated : List (FileItem α)) : Store α V :=
  { s with itemsFromFile := updated, file := updated }

/-- Result of a mutating operation: the new store state, the returned
error (if any) and the notifications fired. -/
structure OpResult (α V : Type) where
  store : Store α V
  error : Option StoreErr
  events : List (Notification α)

/-- Result of Add: as `OpResult` but returning the new id on success. -/
structure AddResult (α V : Type) where
  store : Store α V
  result : Except StoreErr String
  events : List (Notification α)

/-- Add from the source.  `g` is the id produced by the injected id
generator for this call. -/
def add {α V : Type} [DecidableEq V] (caps : Caps α V) (g : String) (s : Store α V)
    (item? : Option α) : AddResult α V :=
  match item? with
  | none => ⟨s, Except.error StoreErr.nilItem, []⟩
  | some item =>
    if (caps.validate item).isSome then ⟨s, Except.error StoreErr.validationFailed, []⟩
    else if checkUniqueness s.indexSet "" (itemKeys caps item) then
      ⟨s, Except.error StoreErr.duplicateKey, []⟩
    else if (mapGet s.itemByID g).isSome then ⟨s, Except.error StoreErr.idCollision, []⟩
    else
      let s1 := updateFile s (s.itemsFromFile ++ [⟨g, item⟩])
      let s2 : Store α V :=
        { s1 with itemByID := mapPut s1.itemByID g item,
                  indexSet := addToIndexEffect s1.indexSet g (itemKeys caps item) }
      ⟨s2, Except.ok g, if caps.hasNotifyNew then [Notification.new g] else []⟩

/-- The Upd loop over the copied list: find the first element with the
given id, return the old item and the list with that element's item
replaced. -/
def replaceFirst {α : Type} (l : List (FileItem α)) (id : String) (item : α) :
    Option (α × List (FileItem α)) :=
  match l with
  | [] => none
  | fi :: rest =>
    if fi.id = id then some (fi.item, ⟨id, item⟩ :: rest)
    else
      match replaceFirst rest id item with
      | some (old, rest') => some (old, fi :: rest')
      | none => none

/-- Upd from the source. -/
def upd {α V : Type} [DecidableEq V] (caps : Caps α V) (s : Store α V) (id : String)
    (item? : Option α) : OpResult α V :=
  match item? with
  | none => ⟨s, some StoreErr.nilItem, []⟩
  | some item =>
    if (caps.validate item).isSome then ⟨s, some StoreErr.validationFailed, []⟩
    else if checkUniqueness s.indexSet id (itemKeys caps item) then
      ⟨s, some StoreErr.duplicateKey, []⟩
    else
      match replaceFirst s.itemsFromFile id item with
      | none => ⟨s, some StoreErr.notFound, []⟩
      | some (oldItem, updatedList) =>
        let s1 := updateFile s updatedList
        let s2 : Store α V := { s1 with indexSet := delFromIndex s1.indexSet (itemKeys caps oldItem) }
        let s3 : Store α V :=
          { s2 with itemByID := mapPut s2.itemByID id item,
                    indexSet := addToIndexEffect s2.indexSet id (itemKeys caps item) }
        ⟨s3, none, if caps.hasNotifyUpd then [Notification.upd id oldItem] else []⟩

/-- The Del loop: `deletedItem` ends up holding the item of the last
element carrying the id (at most one under the store invariant). -/
def lastWithID {α : Type} (l : List (FileItem α)) (id : String) : Option α :=
  l.foldl (fun acc fi => if fi.id = id then some fi.item else acc) none

/-- Del from the source: removing an absent id is a success that touches
nothing. -/
def del {α V : Type} [DecidableEq V] (caps : Caps α V) (s : Store α V) (id : String) :
    OpResult α V :=
  let updated := s.itemsFromFile.filter fun fi => ¬ fi.id = id
  match lastWithID s.itemsFromFile id with
  | none => ⟨s, none, []⟩
  | some deletedItem =>
    let s1 := updateFile s updated
    let s2 : Store α V := { s1 with indexSet := delFromIndex s1.indexSet (itemKeys caps deletedItem) }
    let s3 : Store α V := { s2 with itemByID := mapDel s2.itemByID id }
    ⟨s3, none, if caps.hasNotifyDel then [Notification.del id] else []⟩

/-- Get from the source: point lookup in the id map. -/
def get {α V : Type} (s : Store α V) (id : String) : Except StoreErr α :=
  match mapGet s.itemByID id with
  | some i => Except.ok i
  | none => Except.error StoreErr.notFound

/-- Whether the Find loop keeps a record: no filter, or the record's
`Match(filter)` reports no error. -/
def findPasses {α V : Type} (caps : Caps α V) (filter? : Option α) (fi : FileItem α) : Bool :=
  match filter? with
  | none => true
  | some f => (caps.matchF fi.item f).isNone

/-- The Find loop: `count` is the length of the list collected so far;
the loop breaks after appending once `size > 0` and the collected length
reaches `size`. -/
def findLoop {α V : Type} (caps : Caps α V) (filter? : Option α) (size : Int) :
    List (FileItem α) → Nat → List (String × α)
  | [], _ => []
  | fi :: rest, count =>
    if findPasses caps filter? fi then
      (fi.id, fi.item) ::
        (if size > 0 ∧ ((count : Int) + 1) ≥ size then []
         else findLoop caps filter? size rest (count + 1))
    else findLoop caps filter? size rest count

/-- Find from the source. -/
def find {α V : Type} (caps : Caps α V) (s : Store α V) (size : Int) (filter? : Option α) :
    List (String × α) :=
  findLoop caps filter? size s.itemsFromFile 0

/-- Find as the specification words it: all records kept by the filter,
in sequence order, truncated to the first `size` when `size > 0`. -/
def findSpec {α V : Type} (caps : Caps α V) (s : Store α V) (size : Int) (filter? : Option α) :
    List (String × α) :=
  let all := (s.itemsFromFile.filter (findPasses caps filter?)).map fun fi => (fi.id, fi.item)
  if size > 0 then all.take size.toNat else all

/-- What the store's file holds when readFile runs: absent, zero bytes
(JSON decode reports EOF), malformed JSON, or a decoded array of entries
(an entry's item is `none` when its item field is JSON null). -/
inductive FileContent (α : Type) : Type
  | missing
  | empty
  | malformed
  | data (entries : List (String × Option α))

/-- Distinct load failure sites of readFile. -/
inductive LoadErr : Type
  | decodeFailed
  | missingID
  | duplicateID
  | nilItemData
  | invalidItem
  | duplicateKeyInFile
deriving DecidableEq

/-- The list, map and index the load loop builds before committing. -/
structure Loaded (α V : Type) where
  itemsFromFile : List (FileItem α)
  itemByID : List (String × α)
  indexSet : IndexSet V

/-- The per-entry load loop of readFile: reject an empty id, a duplicate
id, a null item, an invalid item, or a duplicate unique key, in that
order; otherwise accumulate into the new list, map and index. -/
def loadLoop {α V : Type} [DecidableEq V] (caps : Caps α V) :
    List (String × Option α) → List (FileItem α) → List (String × α) → IndexSet V →
    Except LoadErr (Loaded α V)
  | [], accL, accM, accI => Except.ok ⟨accL, accM, accI⟩
  | (id, item?) :: rest, accL, accM, accI =>
    if id = "" then Except.error LoadErr.missingID
    else if (mapGet accM id).isSome then Except.error LoadErr.duplicateID
    else
      match item? with
      | none => Except.error LoadErr.nilItemData
      | some item =>
        if (caps.validate item).isSome then Except.error LoadErr.invalidItem
        else
          match addToIndex accI id (itemKeys caps item) with
          | Except.error _ => Except.error LoadErr.duplicateKeyInFile
          | Except.ok accI' =>
            loadLoop caps rest (accL ++ [⟨id, item⟩]) (mapPut accM id item) accI'

/-- Decode and check the whole file array (readFile's loop, from empty
accumulators). -/
def loadEntries {α V : Type} [DecidableEq V] (caps : Caps α V)
    (entries : List (String × Option α)) : Except LoadErr (Loaded α V) :=
  loadLoop caps entries [] [] emptyIndexSet

/-- The NotifyUpd/NotifyDel phase of readFile: one event per entry of the
old id map — an update when the id is also in the new map, a delete
otherwise — fired only when the item type implements the hook. -/
def updDelEvents {α V : Type} (caps : Caps α V) (newMap oldMap : List (String × α)) :
    List (Notification α) :=
  oldMap.filterMap fun e =>
    match mapGet newMap e.1 with
    | some _ => if caps.hasNotifyUpd then some (Notification.upd e.1 e.2) else none
    | none => if caps.hasNotifyDel then some (Notification.del e.1) else none

/-- The NotifyNew phase of readFile: one event per entry of the new map
whose id is absent from the old map. -/
def newEvents {α V : Type} (caps : Caps α V) (oldMap newMap : List (String × α)) :
    List (Notification α) :=
  newMap.filterMap fun e =>
    match mapGet oldMap e.1 with
    | some _ => none
    | none => if caps.hasNotifyNew then some (Notification.new e.1) else none

/-- Result of readFile: the store state after the call, the returned
error, the notifications fired, and whether a missing file was created. -/
structure LoadResult (α V : Type) where
  store : Store α V
  error : Option LoadErr
  events : List (Notification α)
  createdFile : Bool

/-- readFile from the source.  A missing file is created and an empty or
missing file succeeds, but only the id map is cleared (the source's line
clearing the list is commented out); a decoded array is checked entry by
entry and committed, with the diff notifications fired, only when every
entry is acceptable. -/
def readFile {α V : Type} [DecidableEq V] (caps : Caps α V) (s : Store α V)
    (c : FileContent α) : LoadResult α V :=
  match c with
  | FileContent.missing => ⟨{ s with itemByID := [] }, none, [], true⟩
  | FileContent.empty => ⟨{ s with itemByID := [] }, none, [], false⟩
  | FileContent.malformed => ⟨s, some LoadErr.decodeFailed, [], false⟩
  | FileContent.data entries =>
    match loadEntries caps entries with
    | Except.error e => ⟨s, some e, [], false⟩
    | Except.ok loaded =>
      ⟨{ itemsFromFile := loaded.itemsFromFile, itemByID := loaded.itemByID,
         indexSet := loaded.indexSet, file := s.file },
       none,
       updDelEvents caps loaded.itemByID s.itemByID ++ newEvents caps s.itemByID loaded.itemByID,
       false⟩

/-- Store construction (`newStore`): read the primary file into a fresh
empty state; on a load error the store is not created. -/
def newStore {α V : Type} [DecidableEq V] (caps : Caps α V) (c : FileContent α) :
    Except LoadErr (Store α V) :=
  let r := readFile caps (emptyStore (α := α) (V := V)) c
  match r.error with
  | some e => Except.error e
  | none => Except.ok r.store

/-- Result of a watcher reload: the store after the attempt, whether the
error-marker file is present afterwards (written on failure, removed on
success), and the notifications fired. -/
structure ReloadResult (α V : Type) where
  store : Store α V
  errorMarker : Bool
  events : List (Notification α)

/-- processModifiedFile from the source: attempt a readFile of the
staging file; on failure write the error marker and keep the live state;
on success remove the marker and copy the staging bytes over the primary
file, whose decoded content is then the staging array — no records at
all when the staging file was empty or missing (readFile has created an
empty one in the latter case). -/
def processModifiedFile {α V : Type} [DecidableEq V] (caps : Caps α V) (s : Store α V)
    (c : FileContent α) : ReloadResult α V :=
  let r := readFile caps s c
  match r.error with
  | some _ => ⟨r.store, true, r.events⟩
  | none =>
    let promoted : List (FileItem α) :=
      match c with
      | FileContent.data _ => r.store.itemsFromFile
      | _ => []
    ⟨{ r.store with file := promoted }, false, r.events⟩

/-! Concrete item type used to exercise the operations on closed inputs. -/

/-- A toy item with a single field, declaring `name` as a unique key. -/
structure Person where
  name : String
deriving DecidableEq

/-- Capability record of `Person`: a person validates when its name is
nonempty, matches a filter with an equal or empty name, declares its name
unique, and implements all three notification hooks. -/
def personCaps : Caps Person String :=
  { validate := fun p => if p.name = "" then some "empty name" else none,
    matchF := fun p f => if f.name = "" ∨ p.name = f.name then none else some "name mismatch",
    keys := some fun p => [("name", p.name)],
    hasNotifyNew := true, hasNotifyUpd := true, hasNotifyDel := true }

/-- A store holding the single record ("x", Person "A"), as produced by
adding that person to an empty store. -/
def storeA : Store Person String :=
  { itemsFromFile := [⟨"x", ⟨"A"⟩⟩],
    itemByID := [("x", ⟨"A"⟩)],
    indexSet := fun n v => if n = "name" ∧ v = "A" then some "x" else none,
    file := [⟨"x", ⟨"A"⟩⟩] }

/-- A store holding ("x", Person "A") then ("y", Person "B"). -/
def storeAB : Store Person String :=
  { itemsFromFile := [⟨"x", ⟨"A"⟩⟩, ⟨"y", ⟨"B"⟩⟩],
    itemByID := [("x", ⟨"A"⟩), ("y", ⟨"B"⟩)],
    indexSet := fun n v =>
      if n = "name" ∧ v = "A" then some "x"
      else if n = "name" ∧ v = "B" then some "y" else none,
    file := [⟨"x", ⟨"A"⟩⟩, ⟨"y", ⟨"B"⟩⟩] }

/-! Helper lemmas about the Go-map model. -/

theorem mapGet_nil {α : Type} (k : String) : mapGet ([] : List (String × α)) k = none := rfl

theorem mapGet_cons {α : Type} (e : String × α) (m : List (String × α)) (k : String) :
    mapGet (e :: m) k = if e.1 = k then some e.2 else mapGet m k := by
  by_cases h : e.1 = k <;> simp [mapGet, List.find?_cons, h]

theorem mapGet_append {α : Type} (m₁ m₂ : List (String × α)) (k : String) :
    mapGet (m₁ ++ m₂) k = (mapGet m₁ k).or (mapGet m₂ k) := by
  induction m₁ with
  | nil => simp [mapGet_nil]
  | cons e m ih =>
    by_cases h : e.1 = k <;> simp [mapGet_cons, h, ih]

theorem mapGet_isSome_iff_mem {α : Type} (m : List (String × α)) (k : String) :
    (mapGet m k).isSome ↔ k ∈ m.map Prod.fst := by
  induction m with
  | nil => simp [mapGet_nil]
  | cons e m ih =>
    by_cases h : e.1 = k <;> simp [mapGet_cons, h, ih]
    exact fun hk => (h hk.symm).elim

theorem mapPut_of_absent {α : Type} (m : List (String × α)) (k : String) (v : α)
    (h : mapGet m k = none) : mapPut m k v = m ++ [(k, v)] := by
  unfold mapPut
  have : (m.find? fun e => e.1 = k) = none := by
    cases hf : m.find? fun e => e.1 = k with
    | none => rfl
    | some e => simp [mapGet, hf] at h
  simp [this]

theorem mapGet_mapPut_self {α : Type} (m : List (String × α)) (k : String) (v : α) :
    mapGet (mapPut m k v) k = some v := by
  by_cases h : (m.find? fun e => e.1 = k).isSome
  · unfold mapPut
    simp only [h, if_true]
    induction m with
    | nil => simp at h
    | cons e m ih =>
      by_cases he : e.1 = k
      · simp [mapGet_cons, he]
      · have h' : (m.find? fun e => e.1 = k).isSome := by
          simpa [List.find?_cons, he] using h
        simp [mapGet_cons, he, ih h']
  · have hnone : mapGet m k = none := by
      cases hf : m.find? fun e => e.1 = k with
      | none => simp [mapGet, hf]
      | some e => simp [hf] at h
    rw [mapPut_of_absent m k v hnone, mapGet_append]
    simp [hnone, mapGet_cons]

theorem mapGet_map_replace {α : Type} (m : List (String × α)) (k k' : String) (v : α)
    (h : k' ≠ k) :
    mapGet (m.map fun e => if e.1 = k then (k, v) else e) k' = mapGet m k' := by
  induction m with
  | nil => rfl
  | cons e m ih =>
    by_cases he : e.1 = k
    · have hek : ¬ (k, v).1 = k' := fun hk => h hk.symm
      have hek' : ¬ e.1 = k' := by rw [he]; exact fun hk => h hk.symm
      simp only [List.map_cons, if_pos he, mapGet_cons, hek, if_false, hek']
      exact ih
    · simp only [List.map_cons, if_neg he, mapGet_cons]
      by_cases he' : e.1 = k' <;> simp [he', ih]

theorem mapGet_mapPut_other {α : Type} (m : List (String × α)) (k k' : String) (v : α)
    (h : k' ≠ k) : mapGet (mapPut m k v) k' = mapGet m k' := by
  unfold mapPut
  by_cases hf : (m.find? fun e => e.1 = k).isSome
  · rw [if_pos hf]
    exact mapGet_map_replace m k k' v h
  · rw [if_neg hf, mapGet_append]
    have hsing : mapGet [(k, v)] k' = none := by
      rw [mapGet_cons, if_neg (fun hk => h hk.symm)]
      rfl
    rw [hsing]
    cases mapGet m k' <;> rfl

theorem mapDel_cons {α : Type} (e : String × α) (m : List (String × α)) (k : String) :
    mapDel (e :: m) k = if e.1 = k then mapDel m k else e :: mapDel m k := by
  by_cases h : e.1 = k <;> simp [mapDel, List.filter_cons, h]

theorem mapGet_mapDel_self {α : Type} (m : List (String × α)) (k : String) :
    mapGet (mapDel m k) k = none := by
  induction m with
  | nil => rfl
  | cons e m ih =>
    rw [mapDel_cons]
    by_cases h : e.1 = k
    · rw [if_pos h]; exact ih
    · rw [if_neg h, mapGet_cons, if_neg h]; exact ih

theorem mapGet_mapDel_other {α : Type} (m : List (String × α)) (k k' : String)
    (h : k' ≠ k) : mapGet (mapDel m k) k' = mapGet m k' := by
  induction m with
  | nil => rfl
  | cons e m ih =>
    rw [mapDel_cons, mapGet_cons]
    by_cases he : e.1 = k
    · have hne : ¬ e.1 = k' := by rw [he]; exact fun hk => h hk.symm
      rw [if_pos he, if_neg hne]; exact ih
    · rw [if_neg he, mapGet_cons, ih]

theorem mem_nodup_mapGet {α : Type} (m : List (String × α)) (k : String) (v : α)
    (hnd : (m.map Prod.fst).Nodup) (hm : (k, v) ∈ m) : mapGet m k = some v := by
  induction m with
  | nil => simp at hm
  | cons e m ih =>
    simp only [List.map_cons, List.nodup_cons] at hnd
    rcases List.mem_cons.mp hm with he | hm'
    · simp [mapGet_cons, ← he]
    · have : ¬ e.1 = k := by
        intro hek
        exact hnd.1 (hek ▸ (List.mem_map.mpr ⟨(k, v), hm', rfl⟩))
      simp [mapGet_cons, this, ih hnd.2 hm']

/-! Helper lemmas about the uniqueness index. -/

theorem delFromIndex_apply {V : Type} [DecidableEq V] (idx : IndexSet V)
    (keys : List (String × V)) (n : String) (v : V) :
    delFromIndex idx keys n v = if (n, v) ∈ keys then none else idx n v := by
  induction keys generalizing idx with
  | nil => simp [delFromIndex]
  | cons nv rest ih =>
    show delFromIndex _ rest n v = _
    rw [ih]
    by_cases hr : (n, v) ∈ rest
    · simp [hr]
    · by_cases hh : (n, v) = nv
      · have h1 : n = nv.1 ∧ v = nv.2 := by cases nv; cases hh; exact ⟨rfl, rfl⟩
        simp [hr, hh, h1]
      · have h1 : ¬ (n = nv.1 ∧ v = nv.2) := by
          intro ⟨a, b⟩; exact hh (by cases nv; cases a; cases b; rfl)
        simp [hr, hh, h1]

theorem addKeysToIndex_apply {V : Type} [DecidableEq V] (idx : IndexSet V) (id : String)
    (keys : List (String × V)) (n : String) (v : V) :
    addKeysToIndex idx id keys n v = if (n, v) ∈ keys then some id else idx n v := by
  induction keys generalizing idx with
  | nil => simp [addKeysToIndex]
  | cons nv rest ih =>
    show addKeysToIndex _ id rest n v = _
    rw [ih]
    by_cases hr : (n, v) ∈ rest
    · simp [hr]
    · by_cases hh : (n, v) = nv
      · have h1 : n = nv.1 ∧ v = nv.2 := by cases nv; cases hh; exact ⟨rfl, rfl⟩
        simp [hr, hh, h1]
      · have h1 : ¬ (n = nv.1 ∧ v = nv.2) := by
          intro ⟨a, b⟩; exact hh (by cases nv; cases a; cases b; rfl)
        simp [hr, hh, h1]

/-! Helper lemmas about the Del and Upd loops. -/

theorem foldl_lastWith_no_match {α : Type} (l : List (FileItem α)) (id : String)
    (h : ∀ fi ∈ l, fi.id ≠ id) (acc : Option α) :
    l.foldl (fun acc fi => if fi.id = id then some fi.item else acc) acc = acc := by
  induction l generalizing acc with
  | nil => rfl
  | cons fi rest ih =>
    have hfi : ¬ fi.id = id := h fi (List.mem_cons_self _ _)
    simp only [List.foldl_cons, if_neg hfi]
    exact ih (fun x hx => h x (List.mem_cons_of_mem _ hx)) acc

theorem lastWithID_eq_none {α : Type} (l : List (FileItem α)) (id : String)
    (h : ∀ fi ∈ l, fi.id ≠ id) : lastWithID l id = none :=
  foldl_lastWith_no_match l id h none

theorem lastWithID_split {α : Type} (l1 l2 : List (FileItem α)) (x : FileItem α) (id : String)
    (hx : x.id = id) (h1 : ∀ fi ∈ l1, fi.id ≠ id) (h2 : ∀ fi ∈ l2, fi.id ≠ id) :
    lastWithID (l1 ++ x :: l2) id = some x.item := by
  unfold lastWithID
  rw [List.foldl_append, foldl_lastWith_no_match l1 id h1 none]
  simp only [List.foldl_cons, if_pos hx]
  exact foldl_lastWith_no_match l2 id h2 _

theorem replaceFirst_eq_none {α : Type} (l : List (FileItem α)) (id : String) (item : α)
    (h : ∀ fi ∈ l, fi.id ≠ id) : replaceFirst l id item = none := by
  induction l with
  | nil => rfl
  | cons fi rest ih =>
    have hfi : ¬ fi.id = id := h fi (List.mem_cons_self _ _)
    simp only [replaceFirst, if_neg hfi,
      ih (fun x hx => h x (List.mem_cons_of_mem _ hx))]

theorem filter_ne_split {α : Type} (l1 l2 : List (FileItem α)) (x : FileItem α) (id : String)
    (hx : x.id = id) (h1 : ∀ fi ∈ l1, fi.id ≠ id) (h2 : ∀ fi ∈ l2, fi.id ≠ id) :
    (l1 ++ x :: l2).filter (fun fi => ¬ fi.id = id) = l1 ++ l2 := by
  have hf1 : l1.filter (fun fi => ¬ fi.id = id) = l1 :=
    List.filter_eq_self.mpr fun fi hfi => by simpa using h1 fi hfi
  have hf2 : l2.filter (fun fi => ¬ fi.id = id) = l2 :=
    List.filter_eq_self.mpr fun fi hfi => by simpa using h2 fi hfi
  rw [List.filter_append, List.filter_cons, hf1, hf2]
  simp [hx]

theorem nodup_split_left {α : Type} (l1 l2 : List (FileItem α)) (x : FileItem α) (id : String)
    (hx : x.id = id) (hnd : ((l1 ++ x :: l2).map FileItem.id).Nodup) :
    ∀ fi ∈ l1, fi.id ≠ id := by
  intro fi hfi heq
  rw [List.map_append, List.map_cons, List.nodup_append] at hnd
  exact hnd.2.2 (List.mem_map.mpr ⟨fi, hfi, rfl⟩)
    (by rw [heq, ← hx]; exact List.mem_cons_self _ _)

theorem nodup_split_right {α : Type} (l1 l2 : List (FileItem α)) (x : FileItem α) (id : String)
    (hx : x.id = id) (hnd : ((l1 ++ x :: l2).map FileItem.id).Nodup) :
    ∀ fi ∈ l2, fi.id ≠ id := by
  intro fi hfi heq
  rw [List.map_append, List.map_cons, List.nodup_append] at hnd
  have := (List.nodup_cons.mp hnd.2.1).1
  exact this (by rw [← hx, ← heq] at *; exact List.mem_map.mpr ⟨fi, hfi, heq⟩)

/-! Helper lemmas about the load loop of readFile. -/

theorem loadLoop_ok_entries {α V : Type} [DecidableEq V] (caps : Caps α V) :
    ∀ (entries : List (String × Option α)) (accL : List (FileItem α))
      (accM : List (String × α)) (accI : IndexSet V) (res : Loaded α V),
      loadLoop caps entries accL accM accI = Except.ok res →
      (∀ e ∈ entries, e.1 ≠ "" ∧ ∃ i, e.2 = some i ∧ (caps.validate i).isSome = false) ∧
      (entries.map Prod.fst).Nodup ∧
      (∀ k ∈ entries.map Prod.fst, mapGet accM k = none) := by
  intro entries
  induction entries with
  | nil => intro accL accM accI res _; exact ⟨by simp, by simp, by simp⟩
  | cons e rest ih =>
    intro accL accM accI res hok
    obtain ⟨id, item?⟩ := e
    unfold loadLoop at hok
    by_cases h1 : id = ""
    · rw [if_pos h1] at hok; cases hok
    rw [if_neg h1] at hok
    by_cases h2 : (mapGet accM id).isSome
    · rw [if_pos h2] at hok; cases hok
    rw [if_neg h2] at hok
    cases item? with
    | none => cases hok
    | some item =>
      dsimp only at hok
      by_cases h3 : (caps.validate item).isSome
      · rw [if_pos h3] at hok; cases hok
      rw [if_neg h3] at hok
      cases h4 : addToIndex accI id (itemKeys caps item) with
      | error u => rw [h4] at hok; cases hok
      | ok accI' =>
        rw [h4] at hok
        have IH := ih (accL ++ [⟨id, item⟩]) (mapPut accM id item) accI' res hok
        have hknotid : ∀ k ∈ rest.map Prod.fst, k ≠ id := by
          intro k hk hkid
          have := IH.2.2 k hk
          rw [hkid, mapGet_mapPut_self] at this
          cases this
        refine ⟨?_, ?_, ?_⟩
        · intro e' he'
          rcases List.mem_cons.mp he' with he | hm
          · rw [he]
            exact ⟨h1, item, rfl, by simpa using h3⟩
          · exact IH.1 e' hm
        · rw [List.map_cons]
          refine List.nodup_cons.mpr ⟨?_, IH.2.1⟩
          intro hmem
          exact hknotid id hmem rfl
        · intro k hk
          rw [List.map_cons] at hk
          rcases List.mem_cons.mp hk with hke | hkm
          · rw [hke]
            exact Option.not_isSome_iff_eq_none.mp h2
          · have := IH.2.2 k hkm
            rw [mapGet_mapPut_other accM id k item (hknotid k hkm)] at this
            exact this

theorem loadLoop_ok_mapKeys {α V : Type} [DecidableEq V] (caps : Caps α V) :
    ∀ (entries : List (String × Option α)) (accL : List (FileItem α))
      (accM : List (String × α)) (accI : IndexSet V) (res : Loaded α V),
      loadLoop caps entries accL accM accI = Except.ok res →
      (accM.map Prod.fst).Nodup → (res.itemByID.map Prod.fst).Nodup := by
  intro entries
  induction entries with
  | nil =>
    intro accL accM accI res hok hnd
    unfold loadLoop at hok
    cases hok
    exact hnd
  | cons e rest ih =>
    intro accL accM accI res hok hnd
    obtain ⟨id, item?⟩ := e
    unfold loadLoop at hok
    by_cases h1 : id = ""
    · rw [if_pos h1] at hok; cases hok
    rw [if_neg h1] at hok
    by_cases h2 : (mapGet accM id).isSome
    · rw [if_pos h2] at hok; cases hok
    rw [if_neg h2] at hok
    cases item? with
    | none => cases hok
    | some item =>
      dsimp only at hok
      by_cases h3 : (caps.validate item).isSome
      · rw [if_pos h3] at hok; cases hok
      rw [if_neg h3] at hok
      cases h4 : addToIndex accI id (itemKeys caps item) with
      | error u => rw [h4] at hok; cases hok
      | ok accI' =>
        rw [h4] at hok
        refine ih (accL ++ [⟨id, item⟩]) (mapPut accM id item) accI' res hok ?_
        rw [mapPut_of_absent accM id item (Option.not_isSome_iff_eq_none.mp h2),
          List.map_append]
        refine List.Nodup.append hnd (by simp) ?_
        intro a ha hb
        have : a = id := by simpa using hb
        rw [this] at ha
        exact h2 ((mapGet_isSome_iff_mem accM id).mpr ha)

/-! Claim theorems. -/

/-- C8: deleting an id that is absent from the store returns no error,
fires no notification, and leaves the whole store state — ordered
sequence, id map, uniqueness index and persisted file — unchanged. -/
theorem del_absent_noop {α V : Type} [DecidableEq V] (caps : Caps α V) (s : Store α V)
    (id : String) (habs : ∀ fi ∈ s.itemsFromFile, fi.id ≠ id) :
    del caps s id = ⟨s, none, []⟩ := by
  simp only [del, lastWithID_eq_none _ _ habs]

/-- C8 witness: deleting the unknown id "q" from the one-record store
leaves it untouched. -/
theorem del_absent_noop_witness :
    del personCaps storeA "q" = ⟨storeA, none, []⟩ :=
  del_absent_noop personCaps storeA "q" (by decide)

/-- C10: a successful delete of a present id removes exactly that record:
the ordered sequence loses only that element (all others keep value and
relative order), every other id keeps its map entry while the deleted id
loses its own, and the uniqueness index forgets exactly the (field, value)
pairs the deleted item declares. -/
theorem del_present_frame {α V : Type} [DecidableEq V] (caps : Caps α V) (s : Store α V)
    (id : String) (l1 l2 : List (FileItem α)) (deleted : α)
    (hsplit : s.itemsFromFile = l1 ++ ⟨id, deleted⟩ :: l2)
    (hnd : (s.itemsFromFile.map FileItem.id).Nodup) :
    (del caps s id).error = none ∧
    (del caps s id).store.itemsFromFile = l1 ++ l2 ∧
    (∀ id', id' ≠ id → mapGet (del caps s id).store.itemByID id' = mapGet s.itemByID id') ∧
    mapGet (del caps s id).store.itemByID id = none ∧
    (∀ n v, (n, v) ∉ itemKeys caps deleted → (del caps s id).store.indexSet n v = s.indexSet n v) ∧
    (∀ nv ∈ itemKeys caps deleted, (del caps s id).store.indexSet nv.1 nv.2 = none) := by
  rw [hsplit] at hnd
  have h1 : ∀ fi ∈ l1, fi.id ≠ id := nodup_split_left l1 l2 _ id rfl hnd
  have h2 : ∀ fi ∈ l2, fi.id ≠ id := nodup_split_right l1 l2 _ id rfl hnd
  have hlast : lastWithID s.itemsFromFile id = some deleted := by
    rw [hsplit]; exact lastWithID_split l1 l2 _ id rfl h1 h2
  have hfilter : (s.itemsFromFile.filter fun fi => ¬ fi.id = id) = l1 ++ l2 := by
    rw [hsplit]; exact filter_ne_split l1 l2 _ id rfl h1 h2
  have hdel : del caps s id =
      ⟨{ itemsFromFile := l1 ++ l2,
         itemByID := mapDel s.itemByID id,
         indexSet := delFromIndex s.indexSet (itemKeys caps deleted),
         file := l1 ++ l2 },
       none,
       if caps.hasNotifyDel then [Notification.del id] else []⟩ := by
    simp only [del, hlast, hfilter, updateFile]
  refine ⟨by rw [hdel], by rw [hdel], ?_, ?_, ?_, ?_⟩
  · intro id' hne
    rw [hdel]
    exact mapGet_mapDel_other s.itemByID id id' hne
  · rw [hdel]
    exact mapGet_mapDel_self s.itemByID id
  · intro n v hnv
    rw [hdel]
    simp only [delFromIndex_apply, if_neg hnv]
  · intro nv hnv
    rw [hdel]
    have : (nv.1, nv.2) ∈ itemKeys caps deleted := by simpa using hnv
    simp only [delFromIndex_apply, if_pos this]

/-- C10 witness: deleting "x" from the two-record store removes exactly
that record, keeps "y" intact, and frees exactly the indexed name "A". -/
theorem del_present_frame_witness :
    (del personCaps storeAB "x").error = none ∧
    (del personCaps storeAB "x").store.itemsFromFile = [⟨"y", ⟨"B"⟩⟩] ∧
    mapGet (del personCaps storeAB "x").store.itemByID "y" = mapGet storeAB.itemByID "y" ∧
    mapGet (del personCaps storeAB "x").store.itemByID "x" = none ∧
    (del personCaps storeAB "x").store.indexSet "name" "B" = storeAB.indexSet "name" "B" ∧
    (del personCaps storeAB "x").store.indexSet "name" "A" = none := by
  have h := del_present_frame personCaps storeAB "x" [] [⟨"y", ⟨"B"⟩⟩] ⟨"A"⟩ rfl (by decide)
  exact ⟨h.1, h.2.1, h.2.2.1 "y" (by decide), h.2.2.2.1,
    h.2.2.2.2.1 "name" "B" (by decide), h.2.2.2.2.2 ("name", "A") (by decide)⟩

/-- C7: whenever Add succeeds returning an id, an immediate Get of that
id returns the very item that was added. -/
theorem add_get_roundtrip {α V : Type} [DecidableEq V] (caps : Caps α V) (g : String)
    (s : Store α V) (item : α) (id : String)
    (hok : (add caps g s (some item)).result = Except.ok id) :
    get (add caps g s (some item)).store id = Except.ok item := by
  by_cases h1 : (caps.validate item).isSome
  · simp [add, h1] at hok
  · by_cases h2 : checkUniqueness s.indexSet "" (itemKeys caps item)
    · simp [add, h1, h2] at hok
    · by_cases h3 : (mapGet s.itemByID g).isSome
      · simp [add, h1, h2, h3] at hok
      · have hid : g = id := by simpa [add, h1, h2, h3] using hok
        subst hid
        simp [add, h1, h2, h3, get, updateFile, mapGet_mapPut_self]

/-- C7 witness: adding Person "A" under id "x" to the empty store
succeeds, and Get "x" then returns Person "A". -/
theorem add_get_roundtrip_witness :
    get (add personCaps "x" (emptyStore (α := Person) (V := String)) (some ⟨"A"⟩)).store "x" =
      Except.ok ⟨"A"⟩ :=
  add_get_roundtrip personCaps "x" emptyStore ⟨"A"⟩ "x" rfl

/-- C3 counterexample: "z" is absent from the one-record store and
Person "A" is valid, yet Upd("z", Person "A") fails with the
duplicate-key error — not NotFound — because the uniqueness check runs
before the existence check and the name "A" is owned by record "x". -/
theorem upd_absent_collision_counterexample :
    (∀ fi ∈ storeA.itemsFromFile, fi.id ≠ "z") ∧
    personCaps.validate ⟨"A"⟩ = none ∧
    (upd personCaps storeA "z" (some ⟨"A"⟩)).error = some StoreErr.duplicateKey ∧
    (upd personCaps storeA "z" (some ⟨"A"⟩)).error ≠ some StoreErr.notFound := by
  refine ⟨by decide, by decide, by decide, by decide⟩

/-- C3 amended: for an id absent from the store and a non-nil item that
passes validation, Upd leaves the store unchanged and fires nothing; it
fails with NotFound when the item's declared unique keys collide with no
indexed value, and with DuplicateKey when they do (the uniqueness check
precedes the existence check). -/
theorem upd_absent_unchanged {α V : Type} [DecidableEq V] (caps : Caps α V) (s : Store α V)
    (id : String) (item : α)
    (habs : ∀ fi ∈ s.itemsFromFile, fi.id ≠ id)
    (hvalid : caps.validate item = none) :
    upd caps s id (some item) =
      ⟨s, some (if checkUniqueness s.indexSet id (itemKeys caps item) then StoreErr.duplicateKey
                else StoreErr.notFound), []⟩ := by
  by_cases h2 : checkUniqueness s.indexSet id (itemKeys caps item)
  · simp [upd, hvalid, h2]
  · simp [upd, hvalid, h2, replaceFirst_eq_none _ _ _ habs]

/-- C3 amended witness: updating the absent id "z" with the
non-colliding Person "C" fails with NotFound and leaves the store
unchanged, and with the colliding Person "A" fails with DuplicateKey and
leaves the store unchanged. -/
theorem upd_absent_unchanged_witness :
    (upd personCaps storeA "z" (some ⟨"C"⟩)).store = storeA ∧
    (upd personCaps storeA "z" (some ⟨"C"⟩)).error = some StoreErr.notFound ∧
    (upd personCaps storeA "z" (some ⟨"A"⟩)).store = storeA ∧
    (upd personCaps storeA "z" (some ⟨"A"⟩)).error = some StoreErr.duplicateKey := by
  have h1 := upd_absent_unchanged personCaps storeA "z" ⟨"C"⟩ (by decide) (by decide)
  have h2 := upd_absent_unchanged personCaps storeA "z" ⟨"A"⟩ (by decide) (by decide)
  rw [h1, h2]
  exact ⟨rfl, by decide, rfl, by decide⟩

/-- Unfolding of the uniqueness check: it reports a duplicate exactly
when some declared pair is indexed and the probing id is empty or differs
from the entry's owner. -/
theorem checkUniqueness_eq_true_iff {V : Type} [DecidableEq V] (idx : IndexSet V)
    (id : String) (keys : List (String × V)) :
    checkUniqueness idx id keys = true ↔
      ∃ nv ∈ keys, ∃ oid, idx nv.1 nv.2 = some oid ∧ (id = "" ∨ oid ≠ id) := by
  unfold checkUniqueness
  rw [List.any_eq_true]
  constructor
  · rintro ⟨nv, hnv, hb⟩
    refine ⟨nv, hnv, ?_⟩
    cases hidx : idx nv.1 nv.2 with
    | none => rw [hidx] at hb; simp at hb
    | some oid =>
      rw [hidx] at hb
      refine ⟨oid, rfl, ?_⟩
      rcases Bool.or_eq_true_iff.mp hb with h | h
      · exact Or.inl (by simpa using h)
      · exact Or.inr (by simpa using h)
  · rintro ⟨nv, hnv, oid, hidx, hcond⟩
    refine ⟨nv, hnv, ?_⟩
    rw [hidx]
    rcases hcond with h | h
    · exact Bool.or_eq_true_iff.mpr (Or.inl (by simpa using h))
    · exact Bool.or_eq_true_iff.mpr (Or.inr (by simpa using h))

/-- C6: provided every indexed owner id is nonempty (as in any store whose
ids come from loading or a sane generator), CheckUniqueness(excludeID,
item) fails exactly when some declared (field, value) pair of the item is
indexed under an id other than excludeID; consequently Add (probing with
the empty id) rejects an item any of whose declared values is indexed at
all, Upd's check passes when every declared value is owned by the updated
record itself, and Upd rejects a valid item one of whose declared values
is owned by a different record. -/
theorem checkUniqueness_spec {α V : Type} [DecidableEq V] (caps : Caps α V)
    (g excludeID selfID crossID : String) (s : Store α V) (item : α)
    (howners : ∀ n v oid, s.indexSet n v = some oid → oid ≠ "") :
    (checkUniqueness s.indexSet excludeID (itemKeys caps item) = true ↔
       ∃ nv ∈ itemKeys caps item, ∃ oid, s.indexSet nv.1 nv.2 = some oid ∧ oid ≠ excludeID) ∧
    (caps.validate item = none →
      (∃ nv ∈ itemKeys caps item, (s.indexSet nv.1 nv.2).isSome) →
      (add caps g s (some item)).result = Except.error StoreErr.duplicateKey) ∧
    ((∀ nv ∈ itemKeys caps item, ∀ oid, s.indexSet nv.1 nv.2 = some oid → oid = selfID) →
      checkUniqueness s.indexSet selfID (itemKeys caps item) = false) ∧
    (caps.validate item = none →
      (∃ nv ∈ itemKeys caps item, ∃ oid, s.indexSet nv.1 nv.2 = some oid ∧ oid ≠ crossID) →
      (upd caps s crossID (some item)).error = some StoreErr.duplicateKey) := by
  refine ⟨?_, ?_, ?_, ?_⟩
  · rw [checkUniqueness_eq_true_iff]
    constructor
    · rintro ⟨nv, hnv, oid, hidx, hcond⟩
      refine ⟨nv, hnv, oid, hidx, ?_⟩
      rcases hcond with h | h
      · subst h; exact howners nv.1 nv.2 oid hidx
      · exact h
    · rintro ⟨nv, hnv, oid, hidx, hne⟩
      exact ⟨nv, hnv, oid, hidx, Or.inr hne⟩
  · rintro hvalid ⟨nv, hnv, hsome⟩
    rcases Option.isSome_iff_exists.mp hsome with ⟨oid, hidx⟩
    have hchk : checkUniqueness s.indexSet "" (itemKeys caps item) = true :=
      (checkUniqueness_eq_true_iff _ _ _).mpr ⟨nv, hnv, oid, hidx, Or.inl rfl⟩
    simp [add, hvalid, hchk]
  · intro hself
    cases hchk : checkUniqueness s.indexSet selfID (itemKeys caps item) with
    | false => rfl
    | true =>
      rcases (checkUniqueness_eq_true_iff _ _ _).mp hchk with ⟨nv, hnv, oid, hidx, hcond⟩
      have hoid : oid = selfID := hself nv hnv oid hidx
      rcases hcond with h | h
      · exact absurd (hoid.trans h) (howners nv.1 nv.2 oid hidx)
      · exact absurd hoid h
  · rintro hvalid ⟨nv, hnv, oid, hidx, hne⟩
    have hchk : checkUniqueness s.indexSet crossID (itemKeys caps item) = true :=
      (checkUniqueness_eq_true_iff _ _ _).mpr ⟨nv, hnv, oid, hidx, Or.inr hne⟩
    simp [upd, hvalid, hchk]

/-- C6 witness, on the two-record store (x owns name "A", y owns name
"B") with item Person "B": the failure condition of the check probing
with "x", Add's rejection of the already-indexed name "B", the success of
the self-probe with owner "y", and Upd("x")'s DuplicateKey rejection. -/
theorem checkUniqueness_spec_witness :
    (checkUniqueness storeAB.indexSet "x" (itemKeys personCaps ⟨"B"⟩) = true ↔
       ∃ nv ∈ itemKeys personCaps (Person.mk "B"),
         ∃ oid, storeAB.indexSet nv.1 nv.2 = some oid ∧ oid ≠ "x") ∧
    (add personCaps "z" storeAB (some ⟨"B"⟩)).result = Except.error StoreErr.duplicateKey ∧
    checkUniqueness storeAB.indexSet "y" (itemKeys personCaps ⟨"B"⟩) = false ∧
    (upd personCaps storeAB "x" (some ⟨"B"⟩)).error = some StoreErr.duplicateKey := by
  have howners : ∀ n v oid, storeAB.indexSet n v = some oid → oid ≠ "" := by
    intro n v oid h
    unfold storeAB at h
    dsimp only at h
    split at h
    · cases h; decide
    · split at h
      · cases h; decide
      · cases h
  have h := checkUniqueness_spec personCaps "z" "x" "y" "x" storeAB ⟨"B"⟩ howners
  refine ⟨h.1, h.2.1 (by decide) ⟨("name", "B"), by decide, by decide⟩, ?_, ?_⟩
  · refine h.2.2.1 ?_
    intro nv hnv oid hoid
    have hnv' : nv = ("name", "B") := by
      simpa [itemKeys, personCaps] using hnv
    subst hnv'
    have : storeAB.indexSet "name" "B" = some "y" := by decide
    rw [this] at hoid
    cases hoid
    rfl
  · exact h.2.2.2 (by decide) ⟨("name", "B"), by decide, "y", by decide, by decide⟩

/-- The Find loop, run with `count` results already collected (a count
below the cap), produces the remaining matches in sequence order,
truncated to the cap when one is set. -/
theorem findLoop_eq {α V : Type} (caps : Caps α V) (filter? : Option α) (size : Int)
    (l : List (FileItem α)) : ∀ count : Nat, (size > 0 → (count : Int) < size) →
    findLoop caps filter? size l count =
      (if size > 0 then
        ((l.filter (findPasses caps filter?)).map fun fi => (fi.id, fi.item)).take
          (size.toNat - count)
      else (l.filter (findPasses caps filter?)).map fun fi => (fi.id, fi.item)) := by
  induction l with
  | nil => intro count h; simp [findLoop]
  | cons fi rest ih =>
    intro count h
    by_cases hp : findPasses caps filter? fi
    · by_cases hs : size > 0
      · have hc : (count : Int) < size := h hs
        by_cases hstop : ((count : Int) + 1) ≥ size
        · have hsz : size.toNat - count = 1 := by omega
          simp only [findLoop, hp, if_true, if_pos (And.intro hs hstop), if_pos hs,
            List.filter_cons, List.map_cons, hsz, List.take_succ_cons, List.take_zero]
        · have hsz : size.toNat - count = (size.toNat - (count + 1)) + 1 := by omega
          have hrec := ih (count + 1) (fun _ => by omega)
          simp [findLoop, hp, hs, hstop, hrec, List.filter_cons, hsz]
      · have hrec := ih (count + 1) (fun hpos => absurd hpos hs)
        simp [findLoop, hp, hs, hrec, List.filter_cons]
    · have hrec := ih count h
      simp [findLoop, hp, hrec, List.filter_cons]

/-- C9: Find scans the records in sequence order, keeps a record exactly
when there is no filter or its Match(filter) reports no error, returns
the kept records in that order, truncates to the first `size` results
when `size > 0`, and returns all matches when `size ≤ 0`. -/
theorem find_eq_findSpec {α V : Type} (caps : Caps α V) (s : Store α V) (size : Int)
    (filter? : Option α) : find caps s size filter? = findSpec caps s size filter? := by
  unfold find findSpec
  by_cases hs : size > 0
  · rw [findLoop_eq caps filter? size s.itemsFromFile 0 (fun _ => by exact_mod_cast hs)]
    simp [hs]
  · rw [findLoop_eq caps filter? size s.itemsFromFile 0 (fun hpos => absurd hpos hs)]
    simp [hs]

/-- C5: loading a decoded array that contains an entry with an empty id,
a null or invalid item, or a duplicate id fails as a whole: readFile
returns an error, fires no notification and leaves the prior in-memory
state untouched; at construction the store is not created, and on a
watcher reload the error marker is written while the live state is kept. -/
theorem load_rejects_corruption {α V : Type} [DecidableEq V] (caps : Caps α V)
    (s : Store α V) (entries : List (String × Option α))
    (hbad : (∃ e ∈ entries, e.1 = "" ∨ e.2 = none ∨
              ∃ i, e.2 = some i ∧ (caps.validate i).isSome) ∨
            ¬ (entries.map Prod.fst).Nodup) :
    (∃ err, (readFile caps s (FileContent.data entries)).error = some err) ∧
    (readFile caps s (FileContent.data entries)).store = s ∧
    (readFile caps s (FileContent.data entries)).events = [] ∧
    (processModifiedFile caps s (FileContent.data entries)).errorMarker = true ∧
    (processModifiedFile caps s (FileContent.data entries)).store = s ∧
    (∃ err, newStore (α := α) (V := V) caps (FileContent.data entries) = Except.error err) := by
  have hfail : ∃ err, loadEntries caps entries = Except.error err := by
    cases h : loadEntries caps entries with
    | error e => exact ⟨e, rfl⟩
    | ok res =>
      exfalso
      have hs := loadLoop_ok_entries caps entries [] [] emptyIndexSet res h
      rcases hbad with ⟨e, he, hb⟩ | hnd
      · rcases hs.1 e he with ⟨hne, i, hi, hv⟩
        rcases hb with h1 | h2 | ⟨j, hj, hjv⟩
        · exact hne h1
        · rw [h2] at hi; cases hi
        · rw [hj] at hi
          cases hi
          rw [hjv] at hv
          cases hv
      · exact hnd hs.2.1
  rcases hfail with ⟨err, herr⟩
  refine ⟨⟨err, ?_⟩, ?_, ?_, ?_, ?_, ⟨err, ?_⟩⟩ <;>
    simp [readFile, processModifiedFile, newStore, herr]

/-- C5 witness: a file whose two entries share the id "a" is rejected:
readFile errors and keeps the prior one-record state, the reload writes
the error marker, and construction fails. -/
theorem load_rejects_corruption_witness :
    (∃ err, (readFile personCaps storeA
       (FileContent.data [("a", some ⟨"P"⟩), ("a", some ⟨"Q"⟩)])).error = some err) ∧
    (readFile personCaps storeA
       (FileContent.data [("a", some ⟨"P"⟩), ("a", some ⟨"Q"⟩)])).store = storeA ∧
    (readFile personCaps storeA
       (FileContent.data [("a", some ⟨"P"⟩), ("a", some ⟨"Q"⟩)])).events = [] ∧
    (processModifiedFile personCaps storeA
       (FileContent.data [("a", some ⟨"P"⟩), ("a", some ⟨"Q"⟩)])).errorMarker = true ∧
    (processModifiedFile personCaps storeA
       (FileContent.data [("a", some ⟨"P"⟩), ("a", some ⟨"Q"⟩)])).store = storeA ∧
    (∃ err, newStore (α := Person) (V := String) personCaps
       (FileContent.data [("a", some ⟨"P"⟩), ("a", some ⟨"Q"⟩)]) = Except.error err) :=
  load_rejects_corruption personCaps storeA [("a", some ⟨"P"⟩), ("a", some ⟨"Q"⟩)]
    (Or.inr (by decide))

/-- C1 failing input: the store holds the single record "x" and readFile
is given a zero-byte (EOF) file, as a watcher reload may be; the call
completes without error, yet afterwards "x" is still in the ordered
sequence while the id map is empty — the id sets differ, breaking the
claimed bijection (the source clears only the id map on this branch,
although its comment says the store now has an empty list). -/
theorem readFile_empty_breaks_bijection :
    (readFile personCaps storeA FileContent.empty).error = none ∧
    "x" ∈ ((readFile personCaps storeA FileContent.empty).store.itemsFromFile.map FileItem.id) ∧
    mapGet (readFile personCaps storeA FileContent.empty).store.itemByID "x" = none := by
  refine ⟨rfl, by decide, rfl⟩

/-- C2 failing input: reloading a zero-byte staging file over the
one-record store succeeds but leaves the ordered sequence (and hence
Find's view of the dataset) non-empty while only the id map is cleared;
reloading a missing file likewise creates the file yet keeps the stale
sequence — the store does not end up holding an empty dataset. -/
theorem readFile_empty_not_empty_dataset :
    (readFile personCaps storeA FileContent.empty).error = none ∧
    (readFile personCaps storeA FileContent.empty).store.itemByID = [] ∧
    (readFile personCaps storeA FileContent.empty).store.itemsFromFile ≠ [] ∧
    (readFile personCaps storeA FileContent.missing).error = none ∧
    (readFile personCaps storeA FileContent.missing).createdFile = true ∧
    (readFile personCaps storeA FileContent.missing).store.itemsFromFile ≠ [] := by
  refine ⟨rfl, rfl, by decide, rfl, rfl, by decide⟩

/-! Helper lemmas about the reload notification events. -/

theorem updDelEvents_cons {α V : Type} (caps : Caps α V) (hU : caps.hasNotifyUpd = true)
    (hD : caps.hasNotifyDel = true) (newMap : List (String × α)) (e : String × α)
    (rest : List (String × α)) :
    updDelEvents caps newMap (e :: rest) =
      (match mapGet newMap e.1 with
        | some _ => Notification.upd e.1 e.2
        | none => Notification.del e.1) :: updDelEvents caps newMap rest := by
  unfold updDelEvents
  rw [List.filterMap_cons]
  cases mapGet newMap e.1 <;> simp [hU, hD]

theorem countP_updDel_upd {α V : Type} (caps : Caps α V)
    (hU : caps.hasNotifyUpd = true) (hD : caps.hasNotifyDel = true)
    (newMap : List (String × α)) (id : String) :
    ∀ oldMap : List (String × α), (oldMap.map Prod.fst).Nodup →
      (updDelEvents caps newMap oldMap).countP (isUpdFor id) =
        if id ∈ oldMap.map Prod.fst ∧ (mapGet newMap id).isSome = true then 1 else 0 := by
  intro oldMap
  induction oldMap with
  | nil => intro _; simp [updDelEvents]
  | cons e rest ih =>
    intro hnd
    rw [List.map_cons, List.nodup_cons] at hnd
    rw [updDelEvents_cons caps hU hD, List.countP_cons, ih hnd.2]
    by_cases he : e.1 = id
    · have hnr : id ∉ rest.map Prod.fst := by rw [← he]; exact hnd.1
      cases hm : mapGet newMap e.1 with
      | some v =>
        have hmid : (mapGet newMap id).isSome = true := by rw [← he, hm]; rfl
        simp [isUpdFor, he, hnr, hmid]
      | none =>
        have hmid : (mapGet newMap id).isSome = false := by rw [← he, hm]; rfl
        simp [isUpdFor, he, hnr, hmid]
    · have hmm : (id ∈ e.1 :: rest.map Prod.fst) ↔ id ∈ rest.map Prod.fst := by
        rw [List.mem_cons]
        exact or_iff_right fun h => he h.symm
      cases hm : mapGet newMap e.1 with
      | some v => simp [isUpdFor, he]; exact if_congr (and_congr_left fun _ => hmm.symm) rfl rfl
      | none => simp [isUpdFor, he]; exact if_congr (and_congr_left fun _ => hmm.symm) rfl rfl

theorem countP_updDel_del {α V : Type} (caps : Caps α V)
    (hU : caps.hasNotifyUpd = true) (hD : caps.hasNotifyDel = true)
    (newMap : List (String × α)) (id : String) :
    ∀ oldMap : List (String × α), (oldMap.map Prod.fst).Nodup →
      (updDelEvents caps newMap oldMap).countP (isDelFor id) =
        if id ∈ oldMap.map Prod.fst ∧ (mapGet newMap id).isSome = false then 1 else 0 := by
  intro oldMap
  induction oldMap with
  | nil => intro _; simp [updDelEvents]
  | cons e rest ih =>
    intro hnd
    rw [List.map_cons, List.nodup_cons] at hnd
    rw [updDelEvents_cons caps hU hD, List.countP_cons, ih hnd.2]
    by_cases he : e.1 = id
    · have hnr : id ∉ rest.map Prod.fst := by rw [← he]; exact hnd.1
      cases hm : mapGet newMap e.1 with
      | some v =>
        have hmid : (mapGet newMap id).isSome = true := by rw [← he, hm]; rfl
        simp [isDelFor, he, hnr, hmid]
      | none =>
        have hmid : (mapGet newMap id).isSome = false := by rw [← he, hm]; rfl
        simp [isDelFor, he, hnr, hmid]
    · have hmm : (id ∈ e.1 :: rest.map Prod.fst) ↔ id ∈ rest.map Prod.fst := by
        rw [List.mem_cons]
        exact or_iff_right fun h => he h.symm
      cases hm : mapGet newMap e.1 with
      | some v => simp [isDelFor, he]; exact if_congr (and_congr_left fun _ => hmm.symm) rfl rfl
      | none => simp [isDelFor, he]; exact if_congr (and_congr_left fun _ => hmm.symm) rfl rfl

theorem countP_newEvents_new {α V : Type} (caps : Caps α V)
    (hN : caps.hasNotifyNew = true) (oldMap : List (String × α)) (id : String) :
    ∀ newMap : List (String × α), (newMap.map Prod.fst).Nodup →
      (newEvents caps oldMap newMap).countP (isNewFor id) =
        if id ∈ newMap.map Prod.fst ∧ (mapGet oldMap id).isSome = false then 1 else 0 := by
  intro newMap
  induction newMap with
  | nil => intro _; simp [newEvents]
  | cons e rest ih =>
    intro hnd
    rw [List.map_cons, List.nodup_cons] at hnd
    have hstep : newEvents caps oldMap (e :: rest) =
        (match mapGet oldMap e.1 with
          | some _ => ([] : List (Notification α))
          | none => [Notification.new e.1]) ++ newEvents caps oldMap rest := by
      unfold newEvents
      rw [List.filterMap_cons]
      cases mapGet oldMap e.1 <;> simp [hN]
    rw [hstep, List.countP_append, ih hnd.2]
    by_cases he : e.1 = id
    · have hnr : id ∉ rest.map Prod.fst := by rw [← he]; exact hnd.1
      cases hm : mapGet oldMap e.1 with
      | some v =>
        have hmid : (mapGet oldMap id).isSome = true := by rw [← he, hm]; rfl
        simp [isNewFor, he, hnr, hmid]
      | none =>
        have hmid : (mapGet oldMap id).isSome = false := by rw [← he, hm]; rfl
        simp [isNewFor, he, hnr, hmid]
    · have hmm : (id ∈ e.1 :: rest.map Prod.fst) ↔ id ∈ rest.map Prod.fst := by
        rw [List.mem_cons]
        exact or_iff_right fun h => he h.symm
      cases hm : mapGet oldMap e.1 with
      | some v => simp [isNewFor, he]; exact if_congr (and_congr_left fun _ => hmm.symm) rfl rfl
      | none => simp [isNewFor, he]; exact if_congr (and_congr_left fun _ => hmm.symm) rfl rfl

theorem mem_updDelEvents_shape {α V : Type} (caps : Caps α V)
    (newMap oldMap : List (String × α)) (ev : Notification α)
    (h : ev ∈ updDelEvents caps newMap oldMap) :
    (∃ i o, ev = Notification.upd i o) ∨ ∃ i, ev = Notification.del i := by
  rcases List.mem_filterMap.mp h with ⟨e, he, hfe⟩
  cases hm : mapGet newMap e.1 <;> rw [hm] at hfe
  · by_cases hD : caps.hasNotifyDel <;> simp [hD] at hfe
    exact Or.inr ⟨e.1, hfe.symm⟩
  · by_cases hU : caps.hasNotifyUpd <;> simp [hU] at hfe
    exact Or.inl ⟨e.1, e.2, hfe.symm⟩

theorem mem_newEvents_shape {α V : Type} (caps : Caps α V)
    (oldMap newMap : List (String × α)) (ev : Notification α)
    (h : ev ∈ newEvents caps oldMap newMap) : ∃ i, ev = Notification.new i := by
  rcases List.mem_filterMap.mp h with ⟨e, he, hfe⟩
  cases hm : mapGet oldMap e.1 <;> rw [hm] at hfe
  · by_cases hN : caps.hasNotifyNew <;> simp [hN] at hfe
    exact ⟨e.1, hfe.symm⟩
  · simp at hfe

theorem mem_updDelEvents_upd_mem {α V : Type} (caps : Caps α V)
    (newMap oldMap : List (String × α)) (id : String) (old : α)
    (h : Notification.upd id old ∈ updDelEvents caps newMap oldMap) : (id, old) ∈ oldMap := by
  rcases List.mem_filterMap.mp h with ⟨e, he, hfe⟩
  cases hm : mapGet newMap e.1 <;> rw [hm] at hfe
  · by_cases hD : caps.hasNotifyDel <;> simp [hD] at hfe
  · by_cases hU : caps.hasNotifyUpd <;> simp [hU] at hfe
    obtain ⟨h1, h2⟩ := hfe
    rw [← h1, ← h2]
    simpa using he

/-- Diff notifications on the array branch of readFile: when the staging
content decodes to a record array and the load succeeds, for an item type
implementing the three notification hooks, exactly one NotifyUpd —
carrying the previous value — fires for every id present in both the old
and the new state (even when the value is unchanged), exactly one
NotifyDel fires for every id present only in the old state, exactly one
NotifyNew fires for every id present only in the new state, and every
NotifyUpd/NotifyDel call fires before any NotifyNew call.  The empty and
missing staging-file branches also complete successfully but bypass this
logic entirely; see the zero-byte reload theorem below. -/
theorem reload_diff_notifications {α V : Type} [DecidableEq V] (caps : Caps α V)
    (s : Store α V) (entries : List (String × Option α))
    (hU : caps.hasNotifyUpd = true) (hD : caps.hasNotifyDel = true)
    (hN : caps.hasNotifyNew = true)
    (hnd : (s.itemByID.map Prod.fst).Nodup)
    (hok : (readFile caps s (FileContent.data entries)).error = none) :
    (∀ id, ((readFile caps s (FileContent.data entries)).events).countP (isUpdFor id) =
       if id ∈ s.itemByID.map Prod.fst ∧
          (mapGet (readFile caps s (FileContent.data entries)).store.itemByID id).isSome = true
       then 1 else 0) ∧
    (∀ id, ((readFile caps s (FileContent.data entries)).events).countP (isDelFor id) =
       if id ∈ s.itemByID.map Prod.fst ∧
          (mapGet (readFile caps s (FileContent.data entries)).store.itemByID id).isSome = false
       then 1 else 0) ∧
    (∀ id, ((readFile caps s (FileContent.data entries)).events).countP (isNewFor id) =
       if id ∈ (readFile caps s (FileContent.data entries)).store.itemByID.map Prod.fst ∧
          (mapGet s.itemByID id).isSome = false
       then 1 else 0) ∧
    (∀ id old, Notification.upd id old ∈ (readFile caps s (FileContent.data entries)).events →
       mapGet s.itemByID id = some old) ∧
    (∃ l1 l2, (readFile caps s (FileContent.data entries)).events = l1 ++ l2 ∧
       (∀ ev ∈ l1, isNew ev = false) ∧ (∀ ev ∈ l2, isNew ev = true)) := by
  cases h : loadEntries caps entries with
  | error e => simp [readFile, h] at hok
  | ok res =>
    have hev : (readFile caps s (FileContent.data entries)).events =
        updDelEvents caps res.itemByID s.itemByID ++ newEvents caps s.itemByID res.itemByID := by
      simp [readFile, h]
    have hst : (readFile caps s (FileContent.data entries)).store.itemByID = res.itemByID := by
      simp [readFile, h]
    have hndnew : (res.itemByID.map Prod.fst).Nodup :=
      loadLoop_ok_mapKeys caps entries [] [] emptyIndexSet res h (by simp)
    refine ⟨?_, ?_, ?_, ?_, ?_⟩
    · intro id
      rw [hev, hst, List.countP_append,
        countP_updDel_upd caps hU hD res.itemByID id s.itemByID hnd]
      have hz : (newEvents caps s.itemByID res.itemByID).countP (isUpdFor id) = 0 := by
        rw [List.countP_eq_zero]
        intro ev hevm
        rcases mem_newEvents_shape caps _ _ ev hevm with ⟨i, rfl⟩
        simp [isUpdFor]
      rw [hz, Nat.add_zero]
    · intro id
      rw [hev, hst, List.countP_append,
        countP_updDel_del caps hU hD res.itemByID id s.itemByID hnd]
      have hz : (newEvents caps s.itemByID res.itemByID).countP (isDelFor id) = 0 := by
        rw [List.countP_eq_zero]
        intro ev hevm
        rcases mem_newEvents_shape caps _ _ ev hevm with ⟨i, rfl⟩
        simp [isDelFor]
      rw [hz, Nat.add_zero]
    · intro id
      rw [hev, hst, List.countP_append,
        countP_newEvents_new caps hN s.itemByID id res.itemByID hndnew]
      have hz : (updDelEvents caps res.itemByID s.itemByID).countP (isNewFor id) = 0 := by
        rw [List.countP_eq_zero]
        intro ev hevm
        rcases mem_updDelEvents_shape caps _ _ ev hevm with ⟨i, o, rfl⟩ | ⟨i, rfl⟩ <;>
          simp [isNewFor]
      rw [hz, Nat.zero_add]
    · intro id old hm
      rw [hev] at hm
      rcases List.mem_append.mp hm with hm1 | hm2
      · exact mem_nodup_mapGet s.itemByID id old hnd
          (mem_updDelEvents_upd_mem caps _ _ id old hm1)
      · rcases mem_newEvents_shape caps _ _ _ hm2 with ⟨i, hi⟩
        cases hi
    · refine ⟨updDelEvents caps res.itemByID s.itemByID,
        newEvents caps s.itemByID res.itemByID, hev, ?_, ?_⟩
      · intro ev hm
        rcases mem_updDelEvents_shape caps _ _ ev hm with ⟨i, o, rfl⟩ | ⟨i, rfl⟩ <;> rfl
      · intro ev hm
        rcases mem_newEvents_shape caps _ _ ev hm with ⟨i, rfl⟩
        rfl

/-- Concrete run of the array-branch diff notifications: reloading the
staging array x → B, y → C over the store holding only x → A fires
exactly one NotifyUpd for x, no NotifyDel for x, exactly one NotifyNew
for y, and the update/delete phase precedes the new phase. -/
theorem reload_diff_notifications_witness :
    ((readFile personCaps storeA
        (FileContent.data [("x", some ⟨"B"⟩), ("y", some ⟨"C"⟩)])).events).countP
        (isUpdFor "x") = 1 ∧
    ((readFile personCaps storeA
        (FileContent.data [("x", some ⟨"B"⟩), ("y", some ⟨"C"⟩)])).events).countP
        (isDelFor "x") = 0 ∧
    ((readFile personCaps storeA
        (FileContent.data [("x", some ⟨"B"⟩), ("y", some ⟨"C"⟩)])).events).countP
        (isNewFor "y") = 1 ∧
    (∃ l1 l2, (readFile personCaps storeA
        (FileContent.data [("x", some ⟨"B"⟩), ("y", some ⟨"C"⟩)])).events = l1 ++ l2 ∧
       (∀ ev ∈ l1, isNew ev = false) ∧ (∀ ev ∈ l2, isNew ev = true)) := by
  have h := reload_diff_notifications personCaps storeA
      [("x", some ⟨"B"⟩), ("y", some ⟨"C"⟩)] rfl rfl rfl (by decide) (by decide)
  exact ⟨(h.1 "x").trans (by decide), (h.2.1 "x").trans (by decide),
    (h.2.2.1 "y").trans (by decide), h.2.2.2.2⟩

/-- C4 failing input: a zero-byte staging file over the store holding the
single record "x" (an item type implementing the notification hooks) is a
successful reload — readFile returns no error, and processModifiedFile
removes the error marker and promotes the (empty) staging file over the
primary — yet the reload fires no notification at all: in particular
neither the NotifyDel owed to "x" as an id present only in the old state
of the now-empty dataset, nor, reading the stale sequence as the new
state, the NotifyUpd owed to an id present in both.  The EOF branch of
readFile returns before the diff/notification logic, clearing only the
id map. -/
theorem reload_empty_fires_no_notifications :
    (readFile personCaps storeA FileContent.empty).error = none ∧
    (processModifiedFile personCaps storeA FileContent.empty).errorMarker = false ∧
    (processModifiedFile personCaps storeA FileContent.empty).store.file = [] ∧
    (readFile personCaps storeA FileContent.empty).events = [] ∧
    ((readFile personCaps storeA FileContent.empty).events).countP (isDelFor "x") = 0 ∧
    ((readFile personCaps storeA FileContent.empty).events).countP (isUpdFor "x") = 0 ∧
    mapGet storeA.itemByID "x" = some ⟨"A"⟩ ∧
    mapGet (readFile personCaps storeA FileContent.empty).store.itemByID "x" = none ∧
    "x" ∈ ((readFile personCaps storeA FileContent.empty).store.itemsFromFile.map FileItem.id) ∧
    personCaps.hasNotifyUpd = true ∧ personCaps.hasNotifyDel = true := by
  exact ⟨rfl, rfl, rfl, rfl, rfl, rfl, rfl, rfl, by decide, rfl, rfl⟩

end Jsonfile
